import Mathlib

/-!
Verification of the `fhir-parser` ingestion core against its specification.

The embedding covers the two source files:
* `src/fhir_parser/ig.py` — resource flattening and classification
  (`add_igs_to_spec`), modelled over a JSON value type mirroring what
  `json.load` produces;
* `src/fhir_parser/fhirloader.py` — the cache-ensuring loader
  (`FHIRLoader.load`) and the archive normalizer (`FHIRLoader.expand`),
  modelled over an abstract filesystem state and archive member lists.

Python exceptions are modelled by explicit error values; the loop state
carries ghost observation fields (`trace`, `leaves`) recording which records
were dequeued and which were dispatched as leaves, mirroring the order of
effects in the source.
-/

/-- A JSON value as produced by Python's `json.load`.  Objects are modelled
as association lists of their fields; a parsed Python `dict` has unique keys
(later duplicates overwrite at parse time), so first-match lookup agrees
with `dict` lookup. -/
inductive JValue where
  | null
  | bool (b : Bool)
  | num (n : Int)
  | str (s : String)
  | arr (elems : List JValue)
  | obj (fields : List (String × JValue))
deriving Repr

mutual
/-- Size of a JSON value, used as the termination measure of the
work-queue loop. -/
def JValue.size : JValue → Nat
  | .null => 1
  | .bool _ => 1
  | .num _ => 1
  | .str _ => 1
  | .arr xs => 1 + JValue.sizeL xs
  | .obj fs => 1 + JValue.sizeO fs

def JValue.sizeL : List JValue → Nat
  | [] => 0
  | x :: xs => JValue.size x + JValue.sizeL xs

def JValue.sizeO : List (String × JValue) → Nat
  | [] => 0
  | (_, v) :: fs => JValue.size v + JValue.sizeO fs
end

mutual
/-- Python `==` on JSON values. -/
def JValue.beq : JValue → JValue → Bool
  | .null, .null => true
  | .bool a, .bool b => a == b
  | .num a, .num b => a == b
  | .str a, .str b => a == b
  | .arr a, .arr b => JValue.beqL a b
  | .obj a, .obj b => JValue.beqO a b
  | _, _ => false

def JValue.beqL : List JValue → List JValue → Bool
  | [], [] => true
  | x :: xs, y :: ys => JValue.beq x y && JValue.beqL xs ys
  | _, _ => false

def JValue.beqO : List (String × JValue) → List (String × JValue) → Bool
  | [], [] => true
  | (k, v) :: fs, (k', v') :: fs' => k == k' && JValue.beq v v' && JValue.beqO fs fs'
  | _, _ => false
end

/-- Python `v == "lit"` for a JSON value `v`: only a string compares equal
to a string literal. -/
def JValue.eqStr (v : JValue) (lit : String) : Bool :=
  match v with
  | .str s => s == lit
  | _ => false

/-- First-match field lookup in an object's field list (Python `dict`
lookup; keys of a parsed object are unique). -/
def lookupField (fs : List (String × JValue)) (k : String) : Option JValue :=
  match fs with
  | [] => none
  | (k', v) :: fs => if k' = k then some v else lookupField fs k

/-- Python hashability of a JSON value: `list` and `dict` are unhashable
(using one as a dictionary key raises `TypeError`). -/
def JValue.isHashable : JValue → Bool
  | .arr _ => false
  | .obj _ => false
  | _ => true

/-- Python exceptions raised by subscripting / membership tests. -/
inductive PyErr where
  | keyError (k : String)
  | typeError
deriving Repr, DecidableEq

/-- Python `v[k]` for a string key `k`: a `dict` yields the field or raises
`KeyError`; subscripting any other JSON value by a string raises
`TypeError`. -/
def pyGet (k : String) (v : JValue) : Except PyErr JValue :=
  match v with
  | .obj fs =>
    match lookupField fs k with
    | some w => .ok w
    | none => .error (.keyError k)
  | _ => .error .typeError

/-- Python `k in v` for a string `k`: key test on a `dict`, element test on
a `list`, substring test on a `str`; `in` on other JSON values raises
`TypeError`. -/
def pyHasKey (k : String) (v : JValue) : Except PyErr Bool :=
  match v with
  | .obj fs => .ok (lookupField fs k).isSome
  | .arr xs => .ok (xs.any (fun x => JValue.beq x (.str k)))
  | .str s => .ok (if k = "" then true else (s.splitOn k).length ≥ 2)
  | _ => .error .typeError

/-- Python iteration `for e in v`: a `list` yields its elements, a `str`
its one-character substrings, a `dict` its keys; iterating other JSON
values raises `TypeError`. -/
def pyIter (v : JValue) : Except PyErr (List JValue) :=
  match v with
  | .arr xs => .ok xs
  | .str s => .ok (s.toList.map (fun c => JValue.str (String.singleton c)))
  | .obj fs => .ok (fs.map (fun kv => JValue.str kv.1))
  | _ => .error .typeError

/-- The body of `for e in parsed['entry']: resource_queue.put(e['resource'])`:
extract the `resource` field of every entry, raising at the first entry
without one. -/
def mapGetResource : List JValue → Except PyErr (List JValue)
  | [] => .ok []
  | e :: es =>
    match pyGet "resource" e with
    | .error er => .error er
    | .ok r =>
      match mapGetResource es with
      | .error er => .error er
      | .ok rs => .ok (r :: rs)

/-- Resources nested under a Bundle's `entry` value, in order. -/
def getResources (ev : JValue) : Except PyErr (List JValue) :=
  match pyIter ev with
  | .error e => .error e
  | .ok es => mapGetResource es

/-- Diagnostics emitted via `LOGGER.warning` in `add_igs_to_spec`. -/
inductive Diag where
  | missingResourceType (file : String)
  | csNoConcepts (url : JValue)
  | unknownType (rt : JValue)

/-- Exceptions that can escape `add_igs_to_spec`. -/
inductive Err where
  | py (e : PyErr)
  | assertionFailed
  | parseError (file : String)

/-- Python `d[k] = v` on an insertion-ordered `dict`: replace the value of
an equal key in place, otherwise append (last-write-wins). -/
def dictInsert (d : List (JValue × JValue)) (k v : JValue) :
    List (JValue × JValue) :=
  match d with
  | [] => [(k, v)]
  | (k', v') :: d' =>
    if JValue.beq k' k then (k', v) :: d' else (k', v') :: dictInsert d' k v

/-- `dict` lookup keyed by JSON-value equality. -/
def dictFind (d : List (JValue × JValue)) (k : JValue) : Option JValue :=
  match d with
  | [] => none
  | (k', v') :: d' => if JValue.beq k' k then some v' else dictFind d' k

/-- State accumulated by the flattening/classification loop of
`add_igs_to_spec`.  `valuesets` and `codesystems` model `spec.valuesets` /
`spec.codesystems` (the external `FHIRValueSet` / `FHIRCodeSystem`
constructors are opaque, so the raw record is stored); `trace` and `leaves`
are ghost observations: every record dequeued from the work queue, in
order, and every dequeued record dispatched as a non-Bundle leaf. -/
structure SpecState where
  valuesets : List (JValue × JValue) := []
  codesystems : List (JValue × JValue) := []
  profiles : List JValue := []
  warnings : List Diag := []
  leaves : List JValue := []
  trace : List JValue := []

/-- Classification of one dequeued non-Bundle record `x` with discriminator
value `rt`, mirroring the `elif` chain of `add_igs_to_spec`. -/
def classify (x rt : JValue) (s : SpecState) : Except Err SpecState :=
  if rt.eqStr "StructureDefinition" then
    .ok { s with profiles := s.profiles ++ [x] }
  else if rt.eqStr "ValueSet" then
    match pyHasKey "url" x with
    | .error e => .error (.py e)
    | .ok false => .error .assertionFailed
    | .ok true =>
      match pyGet "url" x with
      | .error e => .error (.py e)
      | .ok u =>
        if u.isHashable then
          .ok { s with valuesets := dictInsert s.valuesets u x }
        else
          .error (.py .typeError)
  else if rt.eqStr "CodeSystem" then
    match pyHasKey "url" x with
    | .error e => .error (.py e)
    | .ok false => .error .assertionFailed
    | .ok true =>
      match pyGet "url" x with
      | .error e => .error (.py e)
      | .ok u =>
        match pyHasKey "content" x, pyHasKey "concept" x with
        | .ok true, .ok true =>
          if u.isHashable then
            .ok { s with codesystems := dictInsert s.codesystems u x }
          else
            .error (.py .typeError)
        | .error e, _ => .error (.py e)
        | _, .error e => .error (.py e)
        | _, _ => .ok { s with warnings := s.warnings ++ [.csNoConcepts u] }
  else
    .ok { s with warnings := s.warnings ++ [.unknownType rt] }

/-- The `while not resource_queue.empty()` loop of `add_igs_to_spec`: FIFO
work-queue expansion of Bundles into their entry resources, with
classification of every non-Bundle record.  A raised Python exception stops
the loop and is returned alongside the state reached so far. -/
def runQueue : List JValue → SpecState → SpecState × Option Err
  | [], s => (s, none)
  | x :: rest, s =>
    let s1 : SpecState := { s with trace := s.trace ++ [x] }
    match pyGet "resourceType" x with
    | .error e => (s1, some (.py e))
    | .ok rt =>
      if rt.eqStr "Bundle" then
        match pyHasKey "entry" x with
        | .error e => (s1, some (.py e))
        | .ok false => runQueue rest s1
        | .ok true =>
          match h2 : pyGet "entry" x with
          | .error e => (s1, some (.py e))
          | .ok ev =>
            match h3 : getResources ev with
            | .error e => (s1, some (.py e))
            | .ok rs => runQueue (rest ++ rs) s1
      else
        let s2 : SpecState := { s1 with leaves := s1.leaves ++ [x] }
        match classify x rt s2 with
        | .error e => (s2, some e)
        | .ok s3 => runQueue rest s3
termination_by q _ => JValue.sizeL q
decreasing_by
  · have hx : 0 < JValue.size x := by cases x <;> simp [JValue.size]
    simp [JValue.sizeL]; omega
  · have happ : ∀ (a b : List JValue),
        JValue.sizeL (a ++ b) = JValue.sizeL a + JValue.sizeL b := by
      intro a b
      induction a with
      | nil => simp [JValue.sizeL]
      | cons y ys ih => simp [JValue.sizeL, ih]; omega
    have hlf : ∀ (fs : List (String × JValue)) (k : String) (v : JValue),
        lookupField fs k = some v → JValue.size v ≤ JValue.sizeO fs := by
      intro fs
      induction fs with
      | nil => intro k v h; simp [lookupField] at h
      | cons f fs ih =>
        intro k v h
        obtain ⟨k', w⟩ := f
        simp only [lookupField] at h
        split at h
        · cases h; simp [JValue.sizeO]
        · have := ih k v h; simp [JValue.sizeO]; omega
    have hpg : ∀ (k : String) (y v : JValue),
        pyGet k y = .ok v → JValue.size v < JValue.size y := by
      intro k y v h
      cases y <;> simp [pyGet] at h
      case obj fs =>
        rcases hl : lookupField fs k with _ | w <;> rw [hl] at h <;> simp at h
        subst h
        have := hlf fs k _ hl
        simp [JValue.size]; omega
    have hmap : ∀ (es rs' : List JValue),
        mapGetResource es = .ok rs' → JValue.sizeL rs' ≤ JValue.sizeL es := by
      intro es
      induction es with
      | nil => intro rs' h; simp [mapGetResource] at h; subst h; simp [JValue.sizeL]
      | cons e es ih =>
        intro rs' h
        simp only [mapGetResource] at h
        rcases hg : pyGet "resource" e with er | r <;> rw [hg] at h <;> simp at h
        rcases hm : mapGetResource es with er | rs'' <;> rw [hm] at h <;> simp at h
        subst h
        have h1 := hpg _ _ _ hg
        have hh := ih _ hm
        simp [JValue.sizeL]; omega
    have hgr : JValue.sizeL rs < JValue.size ev := by
      cases ev <;> simp [getResources, pyIter] at h3
      case str s =>
        cases hs : s.data with
        | nil =>
          rw [hs] at h3; simp [mapGetResource] at h3; subst h3
          simp [JValue.sizeL, JValue.size]
        | cons c cs =>
          rw [hs] at h3; simp [mapGetResource, pyGet] at h3
      case arr xs =>
        have := hmap _ _ h3
        simp [JValue.size]; omega
      case obj fs =>
        cases fs with
        | nil => simp [mapGetResource] at h3; subst h3; simp [JValue.sizeL, JValue.size]
        | cons f fs => simp [mapGetResource, pyGet] at h3
    have hev := hpg _ _ _ h2
    simp [JValue.sizeL, happ]; omega
  · have hx : 0 < JValue.size x := by cases x <;> simp [JValue.size]
    simp [JValue.sizeL]; omega

/-- An implementation-guide `.json` file handed to `add_igs_to_spec`:
its path and the outcome of `json.load` (`none` models a file whose
content fails to parse as JSON, which raises `json.JSONDecodeError`). -/
structure IGFile where
  name : String
  content : Option JValue

/-- The `for file in ig_files` seeding loop of `add_igs_to_spec`: parse
each file, warn and drop a parsed record without a `resourceType` key,
enqueue the rest.  A parse failure (or a `TypeError` from the `in` test)
propagates, abandoning the remaining files. -/
def seedPhase : List IGFile → List Diag × List JValue × Option Err
  | [] => ([], [], none)
  | f :: fs =>
    match f.content with
    | none => ([], [], some (.parseError f.name))
    | some v =>
      match pyHasKey "resourceType" v with
      | .error e => ([], [], some (.py e))
      | .ok false =>
        let (w, q, err) := seedPhase fs
        (Diag.missingResourceType f.name :: w, q, err)
      | .ok true =>
        let (w, q, err) := seedPhase fs
        (w, v :: q, err)

/-- `add_igs_to_spec(spec, ig_files)` up to the end of the work-queue loop:
seed the queue from the files, then run the flattening/classification
loop.  The subsequent profile pass (`_process_profile`, `finalize`,
element-sequence backfill) only drives opaque external-model calls and
touches none of the state observed here.  Warnings are the seed-phase
warnings followed by the loop's warnings, in emission order. -/
def add_igs_to_spec (files : List IGFile) : SpecState × Option Err :=
  match seedPhase files with
  | (w, _, some e) => ({ warnings := w }, some e)
  | (w, q, none) =>
    let (s, e') := runQueue q {}
    ({ s with warnings := w ++ s.warnings }, e')

/-- A Bundle record carrying exactly one entry whose `resource` payload is
`r` (the canonical container shape consumed by the flattening loop). -/
def bundleWrap (r : JValue) : JValue :=
  .obj [("resourceType", .str "Bundle"), ("entry", .arr [.obj [("resource", r)]])]

namespace FHIRLoader

/-- A ZIP archive member, identified by its entry name (`ZipInfo.filename`).
`ZipInfo.is_dir()` is true exactly when the name ends in a slash. -/
structure Member where
  filename : String
deriving Repr, DecidableEq

def Member.isDir (m : Member) : Bool := m.filename.endsWith "/"

/-- Python `s.startswith(pre)`, as a character-list prefix test. -/
def pyStartsWith (s pre : String) : Bool := pre.data.isPrefixOf s.data

/-- Python `len(s)` (a count of characters). -/
def strLen (s : String) : Nat := s.data.length

/-- Python `s[n:]` (drop the first `n` characters). -/
def strDrop (s : String) (n : Nat) : String := ⟨s.data.drop n⟩

/-- The OS-metadata noise test of `expand`:
`m.filename.startswith('__MACOSX/')`. -/
def Member.isNoise (m : Member) : Bool := pyStartsWith m.filename "__MACOSX/"

/-- Characters stripped by Python's `str.strip()`. -/
def pyIsSpace (c : Char) : Bool :=
  c = ' ' ∨ c = '\t' ∨ c = '\n' ∨ c = '\r' ∨ c = '\x0b' ∨ c = '\x0c'

/-- Python truthiness of `s.strip()`: `s` contains some non-whitespace
character. -/
def stripTruthy (s : String) : Bool := s.toList.any (fun c => ¬ pyIsSpace c)

/-- Split a character list at every occurrence of `sep`, keeping empty
segments (the semantics of Python's `s.split('/')` and of the `/`-wise
reading of a path). -/
def splitOnChar (sep : Char) : List Char → List (List Char)
  | [] => [[]]
  | c :: cs =>
    if c = sep then [] :: splitOnChar sep cs
    else
      match splitOnChar sep cs with
      | g :: gs => (c :: g) :: gs
      | [] => [[c]]

/-- The `/`-separated segments of `s`, as strings. -/
def chComps (s : String) : List String :=
  (splitOnChar '/' s.data).map (fun l => ⟨l⟩)

/-- `pathlib.PurePosixPath(s).parts`: the `/`-separated segments with empty
and lone-`.` segments dropped, a leading `/` (or the special POSIX `//`)
kept as the first part of an absolute name. -/
def pathParts (s : String) : List String :=
  let comps := (chComps s).filter (fun c => c ≠ "" && c ≠ ".")
  if ['/', '/'].isPrefixOf s.data && ! (['/', '/', '/'].isPrefixOf s.data) then
    "//" :: comps
  else if ['/'].isPrefixOf s.data then "/" :: comps
  else comps

/-- `s.rstrip('/')`. -/
def rstripSlash (s : String) : String :=
  ⟨(s.data.reverse.dropWhile (fun c => c = '/')).reverse⟩

/-- Insert into a list if not already present (models accumulating a
Python `set`; only its cardinality and sole element are consumed). -/
def insertNew (l : List String) (x : String) : List String :=
  if x ∈ l then l else l ++ [x]

/-- The `roots` set comprehension of `expand`: the distinct first path
components of the members whose stripped name is non-empty.  A member
whose name has no path parts at all (e.g. `"."`) makes `parts[0]` raise
`IndexError`. -/
def computeRoots : List Member → Except PyErr (List String)
  | [] => .ok []
  | m :: ms =>
    if stripTruthy m.filename then
      match pathParts m.filename with
      | [] => .error (.keyError "IndexError")
      | p :: _ =>
        match computeRoots ms with
        | .error e => .error e
        | .ok l => .ok (insertNew l p)
  else
      computeRoots ms

/-- Path components used by `ZipFile.extractall` when materializing a
member: split on `/` and drop empty, `.` and `..` components. -/
def extractParts (s : String) : List String :=
  (chComps s).filter (fun c => c ≠ "" && c ≠ "." && c ≠ "..")

/-- Outputs of the single-root branch: for every member whose name starts
with `root`, the path written relative to the target (the member name with
the `root` prefix removed, as path components); members not under `root`,
and the wrapper directory itself, produce nothing. -/
def singleRootOutputs (root : String) (ms : List Member) :
    List (List String × Member) :=
  ms.filterMap (fun m =>
    if pyStartsWith m.filename root then
      match pathParts (strDrop m.filename (strLen root)) with
      | [] => none
      | inner => some (inner, m)
    else none)

/-- Result of `FHIRLoader.expand`: the target directory is created
unconditionally (before the archive is read), and extraction either raises
or produces a list of written entries, each as path components relative to
the target paired with the source member. -/
structure ExpandOutcome where
  targetDirCreated : Bool
  written : Except PyErr (List (List String × Member))
deriving Repr

/-- `FHIRLoader.expand` on the member list of the archive: drop `__MACOSX/`
noise, compute the distinct top-level segments; with exactly one root,
strip it as a wrapper prefix; otherwise extract every non-noise member
verbatim. -/
def expand (entries : List Member) : ExpandOutcome :=
  let real := entries.filter (fun m => ¬ m.isNoise)
  match computeRoots real with
  | .error e => { targetDirCreated := true, written := .error e }
  | .ok roots =>
    match roots with
    | [r] =>
      let root := rstripSlash r ++ "/"
      { targetDirCreated := true, written := .ok (singleRootOutputs root real) }
    | _ =>
      { targetDirCreated := true,
        written := .ok (real.map (fun m => (extractParts m.filename, m))) }

/-- Abstract view of the cache directory consulted by `load`: whether the
directory exists, which artifact files are present directly under it, and
which expansion subdirectories exist. -/
structure FS where
  cacheExists : Bool
  present : List String
  subdirs : List String
deriving Repr, DecidableEq

/-- Observable side effects of `load`, in program order: directory removal
and creation, a network fetch per missing artifact, archive extraction,
and the final "using cached resources" notice. -/
inductive Event where
  | rmtreeCache
  | mkdirCache
  | downloadRemote (remote : String)
  | mkdirSubdir (dir : String)
  | extractArchive (file : String) (targetSub : Option String)
  | noticeCacheUsed
deriving Repr, DecidableEq

/-- Exceptions raised by `load`: the `assert not force_cache` guard
(realized in the source as a bare `assert`, named `ConfigurationError` in
the specification's error taxonomy) and the missing-artifact failure in
cache-only mode. -/
inductive LoadErr where
  | configurationError
  | missingCacheResource (localName : String)
deriving Repr, DecidableEq

/-- Result of `load`: final filesystem view, emitted events in order, and
the exception, if one was raised (events before the raise stand). -/
structure LoadResult where
  fs : FS
  events : List Event
  err : Option LoadErr
deriving Repr, DecidableEq

/-- The `needs` table: local artifact name, remote name, optional expansion
subdirectory, in dictionary insertion order. -/
def needs : List (String × String × Option String) :=
  [("version.info", "version.info", none),
   ("examples-json.zip", "examples-json.zip", some "examples"),
   ("definitions.json.zip", "definitions.json.zip", some "definitions")]

/-- The `for local, remote in needs.items()` loop of `load`: reuse a
present artifact (recording that the cache was used), fail fast in
cache-only mode on a missing one, otherwise download it and, if it is a
`.zip`, extract it into the cache root or its expansion subdirectory
(created if absent).  After the loop, the cache-used notice is emitted if
any artifact was reused. -/
def loadLoop (force_cache : Bool) :
    List (String × String × Option String) → FS → List Event → Bool → LoadResult
  | [], fs, evs, usesCache =>
    ⟨fs, if usesCache then evs ++ [Event.noticeCacheUsed] else evs, none⟩
  | (localName, remote, expandDir) :: rest, fs, evs, usesCache =>
    if localName ∈ fs.present then
      loadLoop force_cache rest fs evs true
    else if force_cache then
      ⟨fs, evs, some (.missingCacheResource localName)⟩
    else
      let evs := evs ++ [Event.downloadRemote remote]
      let fs := { fs with present := fs.present ++ [localName] }
      if remote.takeRight 4 == ".zip" then
        match expandDir with
        | some d =>
          let (fs, evs) :=
            if d ∈ fs.subdirs then (fs, evs)
            else ({ fs with subdirs := fs.subdirs ++ [d] },
                  evs ++ [Event.mkdirSubdir d])
          loadLoop force_cache rest fs
            (evs ++ [Event.extractArchive remote (some d)]) usesCache
        | none =>
          loadLoop force_cache rest fs
            (evs ++ [Event.extractArchive remote none]) usesCache
      else
        loadLoop force_cache rest fs evs usesCache

/-- `FHIRLoader.load(force_download, force_cache)`: reject conflicting
flags before touching anything, wipe the cache when a re-download is
forced, create the cache directory if absent, then process the `needs`
table. -/
def load (fs : FS) (force_download force_cache : Bool) : LoadResult :=
  if force_download && force_cache then ⟨fs, [], some .configurationError⟩
  else
    let (fs, evs) :=
      if fs.cacheExists && force_download then
        (⟨false, [], []⟩, [Event.rmtreeCache])
      else (fs, ([] : List Event))
    let (fs, evs) :=
      if ¬ fs.cacheExists then ({ fs with cacheExists := true }, evs ++ [Event.mkdirCache])
      else (fs, evs)
    loadLoop force_cache needs fs evs false

end FHIRLoader

theorem FHIRLoader.expand_single {entries : List FHIRLoader.Member} {r : String}
    (h : FHIRLoader.computeRoots (entries.filter (fun m => ¬ m.isNoise)) = .ok [r]) :
    FHIRLoader.expand entries =
      ⟨true, .ok (FHIRLoader.singleRootOutputs (FHIRLoader.rstripSlash r ++ "/")
        (entries.filter (fun m => ¬ m.isNoise)))⟩ := by
  unfold FHIRLoader.expand
  dsimp only
  rw [h]

theorem FHIRLoader.expand_multi {entries : List FHIRLoader.Member}
    {roots : List String}
    (h : FHIRLoader.computeRoots (entries.filter (fun m => ¬ m.isNoise)) = .ok roots)
    (hn : roots.length ≠ 1) :
    FHIRLoader.expand entries =
      ⟨true, .ok ((entries.filter (fun m => ¬ m.isNoise)).map
        (fun m => (FHIRLoader.extractParts m.filename, m)))⟩ := by
  unfold FHIRLoader.expand
  dsimp only
  rw [h]
  match roots, hn with
  | [], _ => rfl
  | [r], hn => exact absurd rfl hn
  | r :: r' :: rest, _ => rfl

/-- C5: with default flags and a cache directory already containing every
artifact of the `needs` manifest, `load` performs no network fetch and no
deletion, leaves the filesystem untouched, succeeds, and its only
observable effect is the non-fatal "using cached resources" notice. -/
theorem claim_C5_full_cache_idempotent (fs : FHIRLoader.FS)
    (hc : fs.cacheExists = true)
    (h1 : "version.info" ∈ fs.present)
    (h2 : "examples-json.zip" ∈ fs.present)
    (h3 : "definitions.json.zip" ∈ fs.present) :
    FHIRLoader.load fs false false =
      ⟨fs, [FHIRLoader.Event.noticeCacheUsed], none⟩ := by
  simp [FHIRLoader.load, FHIRLoader.needs, FHIRLoader.loadLoop, hc, h1, h2, h3]

theorem claim_C5_witness :
    FHIRLoader.load
        ⟨true, ["version.info", "examples-json.zip", "definitions.json.zip"], []⟩
        false false =
      ⟨⟨true, ["version.info", "examples-json.zip", "definitions.json.zip"], []⟩,
        [FHIRLoader.Event.noticeCacheUsed], none⟩ :=
  claim_C5_full_cache_idempotent _ rfl (by simp) (by simp) (by simp)

/-- C6: invoking `load` with `force_download` and `force_cache` both set
fails (the `assert not force_cache` guard, the specification's
`ConfigurationError`) before any filesystem mutation or network fetch: no
event is emitted and the filesystem view is unchanged. -/
theorem claim_C6_conflicting_flags (fs : FHIRLoader.FS) :
    FHIRLoader.load fs true true =
      ⟨fs, [], some FHIRLoader.LoadErr.configurationError⟩ := rfl

theorem claim_C6_witness :
    FHIRLoader.load ⟨true, ["version.info"], []⟩ true true =
      ⟨⟨true, ["version.info"], []⟩, [], some FHIRLoader.LoadErr.configurationError⟩ :=
  claim_C6_conflicting_flags ⟨true, ["version.info"], []⟩

/-- C9: an archive entry under the `__MACOSX/` noise marker never appears
among the written outputs of `expand`, whether the single-root
(prefix-stripping) or the multi-root (verbatim) branch was taken. -/
theorem claim_C9_noise_never_extracted (entries : List FHIRLoader.Member)
    (outs : List (List String × FHIRLoader.Member))
    (h : (FHIRLoader.expand entries).written = .ok outs) :
    ∀ p m, (p, m) ∈ outs → m.isNoise = false := by
  intro p m hm
  rcases hr : FHIRLoader.computeRoots (entries.filter (fun m => ¬ m.isNoise))
    with e | roots
  · unfold FHIRLoader.expand at h
    dsimp only at h
    rw [hr] at h
    simp at h
  · match roots, hr with
    | [r], hr =>
      rw [FHIRLoader.expand_single hr] at h
      simp only [Except.ok.injEq] at h
      subst h
      simp only [FHIRLoader.singleRootOutputs, List.mem_filterMap] at hm
      obtain ⟨a, ha, heq⟩ := hm
      split at heq
      · rcases hpp : FHIRLoader.pathParts
          (FHIRLoader.strDrop a.filename
            (FHIRLoader.strLen (FHIRLoader.rstripSlash r ++ "/"))) with _ | ⟨i, is⟩ <;>
          rw [hpp] at heq
        · simp at heq
        · simp only [Option.some.injEq, Prod.mk.injEq] at heq
          obtain ⟨-, rfl⟩ := heq
          simp only [List.mem_filter, decide_not] at ha
          simpa using ha.2
      · simp at heq
    | [], hr =>
      rw [FHIRLoader.expand_multi hr (by simp)] at h
      simp only [Except.ok.injEq] at h
      subst h
      simp only [List.mem_map] at hm
      obtain ⟨a, ha, heq⟩ := hm
      obtain ⟨-, rfl⟩ := Prod.mk.injEq .. ▸ (by exact heq : (FHIRLoader.extractParts a.filename, a) = (p, m))
      simp only [List.mem_filter, decide_not] at ha
      simpa using ha.2
    | r₁ :: r₂ :: rest, hr =>
      rw [FHIRLoader.expand_multi hr (by simp)] at h
      simp only [Except.ok.injEq] at h
      subst h
      simp only [List.mem_map] at hm
      obtain ⟨a, ha, heq⟩ := hm
      obtain ⟨-, rfl⟩ := Prod.mk.injEq .. ▸ (by exact heq : (FHIRLoader.extractParts a.filename, a) = (p, m))
      simp only [List.mem_filter, decide_not] at ha
      simpa using ha.2

theorem claim_C9_witness :
    (⟨"a/b.txt"⟩ : FHIRLoader.Member).isNoise = false :=
  claim_C9_noise_never_extracted [⟨"__MACOSX/junk"⟩, ⟨"a/b.txt"⟩]
    [(["b.txt"], ⟨"a/b.txt"⟩)] rfl ["b.txt"] ⟨"a/b.txt"⟩ (by simp)

/-- C4 counterexample: an archive whose non-noise entries all share the
single top-level segment `root` can still leave a `root` path component in
the extraction output — only the leading `root/` prefix is stripped, so the
entry `root/root/a.txt` is written at `root/a.txt` under the target,
contradicting "extraction output contains no `root/` path component
anywhere under the target directory". -/
theorem claim_C4_counterexample :
    (FHIRLoader.expand [⟨"root/root/a.txt"⟩]).written =
      .ok [(["root", "a.txt"], ⟨"root/root/a.txt"⟩)] ∧
    "root" ∈ (["root", "a.txt"] : List String) := ⟨rfl, by simp⟩

/-- C4 as amended: in the single-root case `expand` strips exactly the
leading `<root>/` prefix — the written outputs are precisely the non-noise
entries under that prefix, each at the path obtained by removing the prefix
(so a `root` component deeper in an entry survives); in the multi-root (or
zero-entry) case every non-noise entry is extracted verbatim with no
stripping. -/
theorem claim_C4_amended_wrapper_stripping (entries : List FHIRLoader.Member) :
    (∀ r outs,
      FHIRLoader.computeRoots (entries.filter (fun m => ¬ m.isNoise)) = .ok [r] →
      (FHIRLoader.expand entries).written = .ok outs →
      (∀ m ∈ entries.filter (fun m => ¬ m.isNoise),
        FHIRLoader.pyStartsWith m.filename (FHIRLoader.rstripSlash r ++ "/") = true →
        FHIRLoader.pathParts (FHIRLoader.strDrop m.filename
          (FHIRLoader.strLen (FHIRLoader.rstripSlash r ++ "/"))) ≠ [] →
        (FHIRLoader.pathParts (FHIRLoader.strDrop m.filename
          (FHIRLoader.strLen (FHIRLoader.rstripSlash r ++ "/"))), m) ∈ outs) ∧
      (∀ p m, (p, m) ∈ outs →
        m ∈ entries.filter (fun m => ¬ m.isNoise) ∧
        FHIRLoader.pyStartsWith m.filename (FHIRLoader.rstripSlash r ++ "/") = true ∧
        p = FHIRLoader.pathParts (FHIRLoader.strDrop m.filename
          (FHIRLoader.strLen (FHIRLoader.rstripSlash r ++ "/"))))) ∧
    (∀ roots outs,
      FHIRLoader.computeRoots (entries.filter (fun m => ¬ m.isNoise)) = .ok roots →
      roots.length ≠ 1 →
      (FHIRLoader.expand entries).written = .ok outs →
      outs = (entries.filter (fun m => ¬ m.isNoise)).map
        (fun m => (FHIRLoader.extractParts m.filename, m))) := by
  constructor
  · intro r outs hr h
    rw [FHIRLoader.expand_single hr] at h
    simp only [Except.ok.injEq] at h
    subst h
    constructor
    · intro m hm hpre hne
      simp only [FHIRLoader.singleRootOutputs, List.mem_filterMap]
      refine ⟨m, hm, ?_⟩
      rw [if_pos hpre]
      rcases hpp : FHIRLoader.pathParts
        (FHIRLoader.strDrop m.filename
          (FHIRLoader.strLen (FHIRLoader.rstripSlash r ++ "/"))) with _ | ⟨i, is⟩
      · exact absurd hpp hne
      · simp
    · intro p m hm
      simp only [FHIRLoader.singleRootOutputs, List.mem_filterMap] at hm
      obtain ⟨a, ha, heq⟩ := hm
      split at heq
      · rcases hpp : FHIRLoader.pathParts
          (FHIRLoader.strDrop a.filename
            (FHIRLoader.strLen (FHIRLoader.rstripSlash r ++ "/"))) with _ | ⟨i, is⟩ <;>
          rw [hpp] at heq
        · simp at heq
        · simp only [Option.some.injEq, Prod.mk.injEq] at heq
          obtain ⟨rfl, rfl⟩ := heq
          refine ⟨ha, by assumption, hpp.symm⟩
      · simp at heq
  · intro roots outs hr hn h
    rw [FHIRLoader.expand_multi hr hn] at h
    simp only [Except.ok.injEq] at h
    exact h.symm

theorem claim_C4_amended_witness :
    ((["a.txt"], (⟨"root/a.txt"⟩ : FHIRLoader.Member)) ∈
      [((["a.txt"] : List String), (⟨"root/a.txt"⟩ : FHIRLoader.Member)),
       (["sub", "b.txt"], ⟨"root/sub/b.txt"⟩)]) ∧
    ([((["a", "x"] : List String), (⟨"a/x"⟩ : FHIRLoader.Member)),
      (["b", "y"], ⟨"b/y"⟩)] =
      (([⟨"a/x"⟩, ⟨"b/y"⟩] : List FHIRLoader.Member).filter
          (fun m => ¬ m.isNoise)).map
        (fun m => (FHIRLoader.extractParts m.filename, m))) := by
  constructor
  · have h := (claim_C4_amended_wrapper_stripping
      [⟨"root/a.txt"⟩, ⟨"root/sub/b.txt"⟩]).1 "root"
      [(["a.txt"], ⟨"root/a.txt"⟩), (["sub", "b.txt"], ⟨"root/sub/b.txt"⟩)]
      rfl rfl
    have h2 := h.1 ⟨"root/a.txt"⟩ (by decide) (by decide) (by decide)
    simp only [FHIRLoader.strDrop, FHIRLoader.strLen] at h2
    exact h2
  · have h := (claim_C4_amended_wrapper_stripping [⟨"a/x"⟩, ⟨"b/y"⟩]).2
      ["b", "a"] [((["a", "x"] : List String), (⟨"a/x"⟩ : FHIRLoader.Member)),
        (["b", "y"], ⟨"b/y"⟩)] (by rfl) (by decide) (by rfl)
    exact h

theorem splitOnChar_not_mem {sep : Char} {l : List Char} (h : sep ∉ l) :
    FHIRLoader.splitOnChar sep l = [l] := by
  induction l with
  | nil => rfl
  | cons c cs ih =>
    simp only [List.mem_cons, not_or] at h
    have hcs : ¬ (c = sep) := fun hc => h.1 hc.symm
    simp only [FHIRLoader.splitOnChar, if_neg hcs, ih h.2]

theorem prefix_slash_false {l : List Char} (h : ('/' : Char) ∉ l)
    {p : List Char} (hp : ('/' : Char) ∈ p) : p.isPrefixOf l = false := by
  cases hb : p.isPrefixOf l
  · rfl
  · rw [ List.isPrefixOf_iff_prefix] at hb
    exact absurd (hb.subset hp) h

theorem dropWhileSlash_eq_self {l : List Char} (h : ('/' : Char) ∉ l) :
    l.dropWhile (fun c => c = '/') = l := by
  cases l with
  | nil => rfl
  | cons c cs =>
    simp only [List.mem_cons, not_or] at h
    rw [List.dropWhile_cons_of_neg]
    simpa using fun hc => h.1 hc.symm

theorem rstripSlash_no_slash {s : String} (h : ('/' : Char) ∉ s.data) :
    FHIRLoader.rstripSlash s = s := by
  unfold FHIRLoader.rstripSlash
  rw [dropWhileSlash_eq_self (by simpa using h), List.reverse_reverse]

theorem stripTruthy_ne_empty {s : String}
    (h : FHIRLoader.stripTruthy s = true) : s ≠ "" := by
  intro he
  subst he
  simp [FHIRLoader.stripTruthy, String.toList] at h

theorem pathParts_single {s : String} (hsep : ('/' : Char) ∉ s.data)
    (hne : s ≠ "") (hdot : s ≠ ".") : FHIRLoader.pathParts s = [s] := by
  unfold FHIRLoader.pathParts FHIRLoader.chComps
  dsimp only
  rw [splitOnChar_not_mem hsep,
    prefix_slash_false hsep (show ('/' : Char) ∈ ['/', '/'] by simp),
    prefix_slash_false hsep (show ('/' : Char) ∈ ['/'] by simp)]
  simp [hne, hdot]

theorem computeRoots_single {m : FHIRLoader.Member}
    (hb : FHIRLoader.stripTruthy m.filename = true)
    (hp : FHIRLoader.pathParts m.filename = [m.filename]) :
    FHIRLoader.computeRoots [m] = .ok [m.filename] := by
  unfold FHIRLoader.computeRoots
  rw [hb, hp]
  rfl

/-- C10 counterexample: an archive whose sole entry is a top-level regular
file, when the file name is whitespace-only (no path separator), does not
take the single-root branch: the blank name is excluded from the root set
by the `strip()` guard, the root set is empty, and the multi-root branch
extracts the file verbatim — something is written under the target,
contradicting "writes nothing into it". -/
theorem claim_C10_counterexample :
    (('/' : Char) ∉ "   ".data) ∧
    FHIRLoader.expand [⟨"   "⟩] = ⟨true, .ok [(["   "], ⟨"   "⟩)]⟩ :=
  ⟨by decide, rfl⟩

/-- C10 as amended: for every archive whose sole non-noise entry is a
single top-level regular file — a name with no path separator that is not
whitespace-only and not `.` — extraction creates the target directory but
writes nothing into it: the single-root branch is taken with the file name
itself as root, the entry does not match the computed `<name>/` prefix,
and it is silently dropped. -/
theorem claim_C10_amended_single_file (entries : List FHIRLoader.Member)
    (m : FHIRLoader.Member)
    (hreal : entries.filter (fun m => ¬ m.isNoise) = [m])
    (hsep : ('/' : Char) ∉ m.filename.data)
    (hblank : FHIRLoader.stripTruthy m.filename = true)
    (hdot : m.filename ≠ ".") :
    FHIRLoader.expand entries = ⟨true, .ok []⟩ := by
  have hne := stripTruthy_ne_empty hblank
  have hp := pathParts_single hsep hne hdot
  have hroots : FHIRLoader.computeRoots
      (entries.filter (fun m => ¬ m.isNoise)) = .ok [m.filename] := by
    rw [hreal]
    exact computeRoots_single hblank hp
  rw [FHIRLoader.expand_single hroots, hreal, rstripSlash_no_slash hsep]
  have hpre : FHIRLoader.pyStartsWith m.filename (m.filename ++ "/") = false := by
    unfold FHIRLoader.pyStartsWith
    rw [String.data_append]
    cases hb : (m.filename.data ++ "/".data).isPrefixOf m.filename.data
    · rfl
    · rw [ List.isPrefixOf_iff_prefix] at hb
      have hlen := List.IsPrefix.length_le hb
      simp at hlen
  simp [FHIRLoader.singleRootOutputs, hpre]

theorem claim_C10_witness :
    FHIRLoader.expand [⟨"file.txt"⟩] = ⟨true, .ok []⟩ :=
  claim_C10_amended_single_file [⟨"file.txt"⟩] ⟨"file.txt"⟩
    (by rfl) (by decide) (by decide) (by decide)

/-- C1 counterexample: a CodeSystem record with `content` present and a
`concept` listing present but empty is NOT dropped — `add_igs_to_spec`
only tests key presence (`"concept" in parsed`), so the record is stored
in the code-system collection under its url and no diagnostic is
produced. -/
theorem claim_C1_counterexample :
    dictFind (runQueue [JValue.obj [("resourceType", .str "CodeSystem"),
        ("url", .str "u"), ("content", .str "complete"),
        ("concept", .arr [])]] {}).1.codesystems (.str "u") =
      some (JValue.obj [("resourceType", .str "CodeSystem"),
        ("url", .str "u"), ("content", .str "complete"),
        ("concept", .arr [])]) ∧
    (runQueue [JValue.obj [("resourceType", .str "CodeSystem"),
        ("url", .str "u"), ("content", .str "complete"),
        ("concept", .arr [])]] {}).1.warnings = [] := by
  constructor <;>
    simp [runQueue, pyGet, lookupField, JValue.eqStr, pyHasKey, classify,
      JValue.isHashable, dictInsert, dictFind, JValue.beq]

/-- C1 as amended: classification of a CodeSystem record stores it (keyed
by its url) exactly when both the `content` key and the `concept` key are
present — the concept listing is not inspected, so an empty listing is
still stored; when either key is absent the record is dropped and the
"no concepts" diagnostic is produced. -/
theorem claim_C1_amended_codesystem_key_check
    (fields : List (String × JValue)) (u : JValue)
    (hrt : lookupField fields "resourceType" = some (.str "CodeSystem"))
    (hurl : lookupField fields "url" = some u)
    (hhash : u.isHashable = true) :
    ((runQueue [JValue.obj fields] {}).2 = none) ∧
    (((lookupField fields "content").isSome ∧
        (lookupField fields "concept").isSome) →
      (runQueue [JValue.obj fields] {}).1.codesystems = [(u, JValue.obj fields)] ∧
      (runQueue [JValue.obj fields] {}).1.warnings = []) ∧
    ((¬ ((lookupField fields "content").isSome ∧
        (lookupField fields "concept").isSome)) →
      (runQueue [JValue.obj fields] {}).1.codesystems = [] ∧
      (runQueue [JValue.obj fields] {}).1.warnings = [.csNoConcepts u]) := by
  cases hcont : (lookupField fields "content").isSome <;>
    cases hconc : (lookupField fields "concept").isSome <;>
      simp [runQueue, pyGet, pyHasKey, hrt, hurl, classify, JValue.eqStr,
        hcont, hconc, hhash, dictInsert, dictFind]

theorem claim_C1_amended_witness :
    (runQueue [JValue.obj [("resourceType", .str "CodeSystem"),
        ("url", .str "u"), ("content", .str "complete")]] {}).1.codesystems = [] ∧
    (runQueue [JValue.obj [("resourceType", .str "CodeSystem"),
        ("url", .str "u"), ("content", .str "complete")]] {}).1.warnings =
      [.csNoConcepts (.str "u")] :=
  (claim_C1_amended_codesystem_key_check
    [("resourceType", .str "CodeSystem"), ("url", .str "u"),
      ("content", .str "complete")] (.str "u") rfl rfl rfl).2.2 (by simp [lookupField])

theorem seedPhase_cons_false {fn : String} {v' : JValue}
    (hk : pyHasKey "resourceType" v' = .ok false) (l : List IGFile) :
    seedPhase (⟨fn, some v'⟩ :: l) =
      (Diag.missingResourceType fn :: (seedPhase l).1,
        (seedPhase l).2.1, (seedPhase l).2.2) := by
  rcases hs : seedPhase l with ⟨w, q, e⟩
  simp [seedPhase, hk, hs]

theorem seedPhase_cons_true {fn : String} {v' : JValue}
    (hk : pyHasKey "resourceType" v' = .ok true) (l : List IGFile) :
    seedPhase (⟨fn, some v'⟩ :: l) =
      ((seedPhase l).1, v' :: (seedPhase l).2.1, (seedPhase l).2.2) := by
  rcases hs : seedPhase l with ⟨w, q, e⟩
  simp [seedPhase, hk, hs]

/-- C2 counterexample: a record extracted as a nested entry of a Bundle
and missing its `resourceType` discriminator is NOT warned-and-dropped —
it is enqueued unchecked and its dequeue raises `KeyError`
(`parsed['resourceType']`), aborting `add_igs_to_spec` with no
diagnostic: the condition is fatal on the nested path. -/
theorem claim_C2_counterexample :
    (add_igs_to_spec [⟨"f.json", some (bundleWrap (.obj []))⟩]).2 =
      some (.py (.keyError "resourceType")) ∧
    (add_igs_to_spec [⟨"f.json", some (bundleWrap (.obj []))⟩]).1.warnings = [] := by
  constructor <;>
    simp [add_igs_to_spec, seedPhase, bundleWrap, pyHasKey, lookupField,
      runQueue, pyGet, getResources, pyIter, mapGetResource, JValue.eqStr]

/-- C2 as amended: a record read from a file that lacks the `resourceType`
key is diagnosed with a warning and dropped — never enqueued, never
yielded, never fatal — but a record extracted as a nested Bundle entry is
enqueued without any check, and if it lacks the key its dequeue fails
fatally with `KeyError` and no diagnostic. -/
theorem claim_C2_amended_discriminator_check :
    (∀ (fs : List IGFile) (n : String) (v : JValue),
      pyHasKey "resourceType" v = .ok false →
      (seedPhase fs).2.2 = none →
      seedPhase (fs ++ [⟨n, some v⟩]) =
        ((seedPhase fs).1 ++ [.missingResourceType n], (seedPhase fs).2.1, none)) ∧
    (∀ fields : List (String × JValue),
      lookupField fields "resourceType" = none →
      (runQueue [bundleWrap (.obj fields)] {}).2 =
        some (.py (.keyError "resourceType")) ∧
      (runQueue [bundleWrap (.obj fields)] {}).1.warnings = []) := by
  constructor
  · intro fs n v hv
    induction fs with
    | nil =>
      intro _
      simp [seedPhase, hv]
    | cons f fs ih =>
      intro hnone
      rcases f with ⟨fn, fc⟩
      rcases fc with _ | v'
      · simp [seedPhase] at hnone
      · rcases hk : pyHasKey "resourceType" v' with e | b
        · simp [seedPhase, hk] at hnone
        · rcases b with _ | _
          · rw [seedPhase_cons_false hk] at hnone
            simp only at hnone
            rw [List.cons_append, seedPhase_cons_false hk,
              seedPhase_cons_false hk, ih hnone]
            simp
          · rw [seedPhase_cons_true hk] at hnone
            simp only at hnone
            rw [List.cons_append, seedPhase_cons_true hk,
              seedPhase_cons_true hk, ih hnone]
  · intro fields hf
    constructor <;>
      simp [runQueue, bundleWrap, pyGet, pyHasKey, lookupField, getResources,
        pyIter, mapGetResource, JValue.eqStr, hf]

theorem claim_C2_amended_witness :
    (seedPhase [⟨"a.json", some (.obj [("foo", .null)])⟩] =
      ([.missingResourceType "a.json"], [], none)) ∧
    ((runQueue [bundleWrap (.obj [("foo", .null)])] {}).2 =
      some (.py (.keyError "resourceType"))) := by
  constructor
  · have h := claim_C2_amended_discriminator_check.1 [] "a.json"
      (.obj [("foo", .null)]) (by simp [pyHasKey, lookupField]) (by simp [seedPhase])
    simpa [seedPhase] using h
  · exact (claim_C2_amended_discriminator_check.2 [("foo", .null)]
      (by simp [lookupField])).1

theorem seedPhase_append_fail (pre : List IGFile) (n : String)
    (post : List IGFile) :
    (seedPhase pre).2.2 = none →
    seedPhase (pre ++ ⟨n, none⟩ :: post) =
      ((seedPhase pre).1, (seedPhase pre).2.1, some (.parseError n)) := by
  induction pre with
  | nil =>
    intro _
    simp [seedPhase]
  | cons f fs ih =>
    intro hpre
    rcases f with ⟨fn, fc⟩
    rcases fc with _ | v'
    · simp [seedPhase] at hpre
    · rcases hk : pyHasKey "resourceType" v' with e | b
      · simp [seedPhase, hk] at hpre
      · rcases b with _ | _
        · rw [seedPhase_cons_false hk] at hpre
          simp only at hpre
          rw [List.cons_append, seedPhase_cons_false hk,
            seedPhase_cons_false hk, ih hpre]
        · rw [seedPhase_cons_true hk] at hpre
          simp only at hpre
          rw [List.cons_append, seedPhase_cons_true hk,
            seedPhase_cons_true hk, ih hpre]

/-- C3 counterexample: an implementation-guide file that fails to parse is
NOT downgraded to a diagnostic — `json.load` is not guarded, so
`add_igs_to_spec` aborts with the parse error, emits no diagnostic, and
the remaining files are never processed (nothing is ever dequeued). -/
theorem claim_C3_counterexample :
    (add_igs_to_spec [⟨"bad.json", none⟩,
        ⟨"good.json", some (.obj [("resourceType", .str "Patient")])⟩]).2 =
      some (.parseError "bad.json") ∧
    (add_igs_to_spec [⟨"bad.json", none⟩,
        ⟨"good.json", some (.obj [("resourceType", .str "Patient")])⟩]).1.warnings = [] ∧
    (add_igs_to_spec [⟨"bad.json", none⟩,
        ⟨"good.json", some (.obj [("resourceType", .str "Patient")])⟩]).1.trace = [] :=
  ⟨rfl, rfl, rfl⟩

/-- C3 as amended: an implementation-guide resource file that fails to
parse as JSON aborts ingestion: the parse error propagates out of
`add_igs_to_spec`, the files after it are never read, the work queue never
runs, and only the diagnostics already emitted for earlier files
survive. -/
theorem claim_C3_amended_parse_failure_fatal (pre : List IGFile) (n : String)
    (post : List IGFile) (hpre : (seedPhase pre).2.2 = none) :
    add_igs_to_spec (pre ++ ⟨n, none⟩ :: post) =
      ({ warnings := (seedPhase pre).1 }, some (.parseError n)) := by
  have h := seedPhase_append_fail pre n post hpre
  simp [add_igs_to_spec, h]

theorem claim_C3_amended_witness :
    add_igs_to_spec [⟨"w.json", some (.obj [])⟩, ⟨"bad.json", none⟩,
        ⟨"late.json", some (.obj [("resourceType", .str "Patient")])⟩] =
      ({ warnings := [.missingResourceType "w.json"] }, some (.parseError "bad.json")) := by
  have h := claim_C3_amended_parse_failure_fatal [⟨"w.json", some (.obj [])⟩]
    "bad.json" [⟨"late.json", some (.obj [("resourceType", .str "Patient")])⟩]
    (by simp [seedPhase, pyHasKey, lookupField])
  simpa [seedPhase, pyHasKey, lookupField] using h

theorem classify_leaves (x rt : JValue) (s : SpecState) :
    ∀ s', classify x rt s = .ok s' → s'.leaves = s.leaves := by
  intro s' h
  unfold classify at h
  repeat' split at h
  all_goals simp_all
  all_goals (cases h; rfl)

theorem runQueue_bundle_step (r : JValue) (q : List JValue) (s : SpecState) :
    runQueue (bundleWrap r :: q) s =
      runQueue (q ++ [r]) { s with trace := s.trace ++ [bundleWrap r] } := by
  simp [runQueue, bundleWrap, pyGet, pyHasKey, lookupField, getResources,
    pyIter, mapGetResource, JValue.eqStr]

theorem runQueue_single_leaf (r t : JValue) (s : SpecState)
    (hrt : pyGet "resourceType" r = .ok t) (hnb : t.eqStr "Bundle" = false) :
    (runQueue [r] s).1.leaves = s.leaves ++ [r] := by
  simp only [runQueue, hrt, hnb, Bool.false_eq_true, if_false]
  split
  · simp
  · next s3 hcl =>
    simpa using classify_leaves _ _ _ _ hcl

/-- C7: flattening a container resource nested three levels deep — a
Bundle containing a Bundle containing a Bundle containing a non-Bundle
leaf — yields exactly the leaf record, yields it exactly once, and never
yields any intermediate Bundle: the dispatched-leaf trace of the
work-queue loop is `[r]`. -/
theorem claim_C7_triple_nested_bundle (r t : JValue)
    (hrt : pyGet "resourceType" r = .ok t)
    (hnb : t.eqStr "Bundle" = false) :
    (runQueue [bundleWrap (bundleWrap (bundleWrap r))] {}).1.leaves = [r] := by
  rw [runQueue_bundle_step, List.nil_append, runQueue_bundle_step,
    List.nil_append, runQueue_bundle_step, List.nil_append,
    runQueue_single_leaf r t _ hrt hnb]
  simp

theorem claim_C7_witness :
    (runQueue [bundleWrap (bundleWrap (bundleWrap
        (.obj [("resourceType", .str "Patient")])))] {}).1.leaves =
      [.obj [("resourceType", .str "Patient")]] :=
  claim_C7_triple_nested_bundle (.obj [("resourceType", .str "Patient")])
    (.str "Patient") rfl rfl

theorem classify_trace (x rt : JValue) (s : SpecState) :
    ∀ s', classify x rt s = .ok s' → s'.trace = s.trace := by
  intro s' h
  unfold classify at h
  repeat' split at h
  all_goals simp_all
  all_goals (cases h; rfl)

/-- C8: the flattening work-queue loop is total (it is a well-founded
recursion on the total size of the queued records, so it terminates on
every finite input however deeply containers are nested), and on a run
that raises no exception it is exhaustive: every seeded record is dequeued
and processed, in order — the dequeue trace extends the initial queue. -/
theorem claim_C8_queue_terminates_exhaustive (q : List JValue) (s : SpecState) :
    (runQueue q s).2 = none →
    ∃ t, (runQueue q s).1.trace = s.trace ++ q ++ t := by
  induction q, s using runQueue.induct with
  | case1 s =>
    intro _
    exact ⟨[], by simp [runQueue]⟩
  | case2 x rest s er h =>
    intro hok
    simp [runQueue, h] at hok
  | case3 x rest s r h1 hb e hk =>
    intro hok
    simp [runQueue, h1, hb, hk] at hok
  | case4 x rest s s1 r h1 hb hk ih =>
    intro hok
    have heq : runQueue (x :: rest) s =
        runQueue rest { s with trace := s.trace ++ [x] } := by
      simp [runQueue, h1, hb, hk]
    rw [heq] at hok ⊢
    obtain ⟨t, ht⟩ := ih hok
    refine ⟨t, ?_⟩
    rw [ht]
    simp
  | case5 x rest s r h1 hb hk e h2 =>
    intro hok
    simp [runQueue, h1, hb, hk] at hok
    split at hok
    · simp at hok
    · next ev hev =>
      rw [h2] at hev
      exact Except.noConfusion hev
  | case6 x rest s r h1 hb hk ev h2 e h3 =>
    intro hok
    simp [runQueue, h1, hb, hk] at hok
    split at hok
    · next e' he' =>
      rw [h2] at he'
      exact Except.noConfusion he'
    · next ev' hev' =>
      rw [h2] at hev'
      injection hev' with hev''
      subst hev''
      split at hok
      · simp at hok
      · next rs hrs =>
        rw [h3] at hrs
        exact Except.noConfusion hrs
  | case7 x rest s s1 r h1 hb hk ev h2 rs h3 ih =>
    intro hok
    have heq : runQueue (x :: rest) s =
        runQueue (rest ++ rs) { s with trace := s.trace ++ [x] } := by
      simp [runQueue, h1, hb, hk]
      split
      · next e' he' =>
        rw [h2] at he'
        exact Except.noConfusion he'
      · next ev' hev' =>
        rw [h2] at hev'
        injection hev' with hev''
        subst hev''
        split
        · next e' he' =>
          rw [h3] at he'
          exact Except.noConfusion he'
        · next rs' hrs' =>
          rw [h3] at hrs'
          injection hrs' with hrs''
          subst hrs''
          rfl
    rw [heq] at hok ⊢
    obtain ⟨t, ht⟩ := ih hok
    refine ⟨rs ++ t, ?_⟩
    rw [ht]
    simp
  | case8 x rest s s1 r h1 hnb s2 e hcl =>
    intro hok
    simp [runQueue, h1, hnb, hcl] at hok
  | case9 x rest s s1 r h1 hnb s2 s3 hcl ih =>
    intro hok
    have heq : runQueue (x :: rest) s = runQueue rest s3 := by
      simp [runQueue, h1, hnb, hcl]
    rw [heq] at hok ⊢
    obtain ⟨t, ht⟩ := ih hok
    refine ⟨t, ?_⟩
    rw [ht]
    have htr := classify_trace _ _ _ _ hcl
    simp only at htr
    rw [htr]
    simp

theorem claim_C8_witness :
    ∃ t, (runQueue [bundleWrap (.obj [("resourceType", .str "Patient")])] {}).1.trace =
      ([] : List JValue) ++ [bundleWrap (.obj [("resourceType", .str "Patient")])] ++ t :=
  claim_C8_queue_terminates_exhaustive
    [bundleWrap (.obj [("resourceType", .str "Patient")])] {} (by
      rw [runQueue_bundle_step]
      simp [runQueue, pyGet, lookupField, JValue.eqStr, classify, pyHasKey])
